import Mathlib
/-!
Verification of the relevance-ranking pipeline of `Filtro_SerpiAPI.py` /
`Filtro_bilingue.py` (the two files share the scoring, filtering and
persistence logic verbatim).

The repository's own code is embedded directly.  The external libraries it
calls (scikit-learn's `TfidfVectorizer` / `cosine_similarity`, `requests`,
spaCy) are modelled at their documented interface:

* the TF-IDF + cosine step is a parameter `simFn : List String → String → List ℚ`
  producing the similarity of each document against the reference term, except
  for its documented failure mode — `fit_transform` raises `ValueError: empty
  vocabulary` when no document contributes a vocabulary term after
  tokenization and stop-word removal — which is modelled structurally since
  the error-handling claims hinge on it;
* scikit-learn's tokenizer (default `token_pattern`, lowercasing): maximal
  runs of word characters of length at least 2;
* the stop-word lists (`stop_words_pt` built from spaCy, scikit-learn's
  built-in `'english'` list) are external data and enter as parameters;
* the HTTP layer is a parameter holding either the response or the raised
  exception.

Raising an exception is modelled by `Except.error`.
-/

/-- An article record, as built by `coletar_artigos` and enriched by
`calcular_relevancia` (`titulo`, `resumo`, `link`, `relevancia`). -/
structure Artigo where
  titulo : String
  resumo : String
  link : String
  relevancia : ℚ
deriving Repr, DecidableEq

/-- The sentinel abstract used when a result has no snippet. -/
def resumoNaoDisponivel : String := "Resumo não disponível"

/-- A word character in scikit-learn's default token pattern `\w\w+`. -/
def isWordChar (c : Char) : Bool := c.isAlphanum || c = '_'

/-- Splits a character stream into maximal runs of word characters
(`acc` holds the current run, reversed). -/
def tokensAux : List Char → List Char → List (List Char)
  | [], acc => if acc.isEmpty then [] else [acc.reverse]
  | c :: rest, acc =>
    if isWordChar c then
      tokensAux rest (c :: acc)
    else if acc.isEmpty then
      tokensAux rest []
    else
      acc.reverse :: tokensAux rest []

/-- Models scikit-learn's default analyzer: lowercase, then keep maximal runs
of word characters having at least two characters (`token_pattern` is
`(?u)\b\w\w+\b`). -/
def sklearnTokens (s : String) : List String :=
  ((tokensAux (s.toList.map Char.toLower) []).filter (fun t => 2 ≤ t.length)).map
    (fun cs => String.mk cs)

/-- Vocabulary non-emptiness: some document contributes a token that is not a
stop word.  `TfidfVectorizer.fit_transform` raises `ValueError: empty
vocabulary` exactly when this fails. -/
def temVocabulario (stop_words : List String) (docs : List String) : Bool :=
  docs.any (fun d => (sklearnTokens d).any (fun t => !stop_words.contains t))

/-- Line `stop_words = stop_words_pt if idioma == "pt" else 'english'` of
`calcular_relevancia`.  The two concrete lists are external data (spaCy's
Portuguese stop words, scikit-learn's built-in English list) and are
parameters. -/
def escolher_stop_words (stop_words_pt english : List String) (idioma : String) : List String :=
  if idioma = "pt" then stop_words_pt else english

/-- Line `textos = [artigo['resumo'] for artigo in artigos if artigo['resumo'] != "Resumo não disponível"]`. -/
def textosDe (artigos : List Artigo) : List String :=
  (artigos.filter (fun a => a.resumo ≠ resumoNaoDisponivel)).map (fun a => a.resumo)

/-- The loop `for i, artigo in enumerate(artigos): artigo['relevancia'] =
similaridades[i] if i < len(similaridades) else 0`.  Mutation of the records
is rendered by returning the updated list, in input order. -/
def atribuirRelevancias (artigos : List Artigo) (similaridades : List ℚ) : List Artigo :=
  artigos.mapIdx (fun i artigo =>
    { artigo with
      relevancia := if i < similaridades.length then similaridades.getD i 0 else 0 })

/-- The comparison underlying `sorted(artigos, key=lambda x: x['relevancia'],
reverse=True)`: descending by relevance; Python's sort is stable, as is
`List.mergeSort`. -/
def porRelevanciaDesc (a b : Artigo) : Bool := decide (b.relevancia ≤ a.relevancia)

/-- The body of `calcular_relevancia(artigos, termo_referencia, idioma)`.
`simFn` abstracts `cosine_similarity` on the fitted TF-IDF matrix (row of the
reference term against the document rows); the guards model the two
documented failure modes along this path, neither of which the function
catches: `fit_transform` raises `empty vocabulary` when no document
contributes a term, and `cosine_similarity` (via `check_pairwise_arrays`)
raises `Found array with 0 sample(s)` when `matriz_tfidf[:-1]` has no rows,
i.e. when every abstract was the sentinel. -/
def calcular_relevancia (simFn : List String → String → List ℚ)
    (stop_words_pt english : List String)
    (artigos : List Artigo) (termo_referencia : String) (idioma : String) :
    Except String (List Artigo) :=
  if temVocabulario (escolher_stop_words stop_words_pt english idioma)
      (textosDe artigos ++ [termo_referencia]) then
    if textosDe artigos = [] then
      Except.error "Found array with 0 sample(s)"
    else
      Except.ok
        ((atribuirRelevancias artigos
            (simFn (textosDe artigos) termo_referencia)).mergeSort porRelevanciaDesc)
  else
    Except.error "empty vocabulary"

/-- Concrete similarity oracle for closed evaluations: the TF-IDF cosine of a
document textually identical to the reference term is exactly 1, and the
cosine of a document sharing no vocabulary term with it is 0.  The concrete
inputs below only exercise those two cases. -/
def simExata (textos : List String) (termo : String) : List ℚ :=
  textos.map (fun t => if t = termo then 1 else 0)

/-- First article of the C1 failing input: its abstract is the sentinel. -/
def artigoSemResumo : Artigo :=
  { titulo := "Artigo A", resumo := "Resumo não disponível", link := "http://a", relevancia := 0 }

/-- Second article of the C1 failing input: its abstract is literally the
query, so its TF-IDF cosine against the query is 1. -/
def artigoNoTema : Artigo :=
  { titulo := "Artigo B", resumo := "graph neural networks", link := "http://b", relevancia := 0 }

/-- Input for C2: an article whose abstract consists of a single stop word. -/
def artigoSoParada : Artigo :=
  { titulo := "T", resumo := "of", link := "", relevancia := 0 }

/-- A raw organic result from the search-provider JSON; absent fields are
`none` (Python `.get` with a default). -/
structure SerpResult where
  title : Option String
  snippet : Option String
  link : Option String
deriving Repr, DecidableEq

/-- The HTTP response of the `requests.get` call in `coletar_artigos`. -/
structure SerpResponse where
  status_code : Nat
  organic_results : List SerpResult
deriving Repr, DecidableEq

/-- Builds one article record from one raw result, with the defaults of
`coletar_artigos`. -/
def artigoDeResultado (resultado : SerpResult) : Artigo :=
  { titulo := resultado.title.getD "Título não disponível"
    resumo := resultado.snippet.getD "Resumo não disponível"
    link := resultado.link.getD ""
    relevancia := 0 }

/-- The body of `coletar_artigos(query, max_resultados, api_key)` of
`Filtro_SerpiAPI.py`.  The network call is a parameter: `Except.error` models
an exception raised by `requests.get`, which the function does not catch and
therefore propagates; on a response, status 200 yields at most
`max_resultados` records (`resultados[:max_resultados]`) with defaulted
fields, any other status yields the empty list. -/
def coletar_artigos (resposta : Except String SerpResponse) (max_resultados : Nat) :
    Except String (List Artigo) :=
  match resposta with
  | Except.error e => Except.error e
  | Except.ok response =>
    if response.status_code = 200 then
      Except.ok ((response.organic_results.take max_resultados).map artigoDeResultado)
    else
      Except.ok []

/-- The list comprehension `artigos_relevantes = [artigo for artigo in
artigos_ordenados if artigo['relevancia'] > 0]` of the main block (identical
in both files). -/
def artigos_relevantes (artigos_ordenados : List Artigo) : List Artigo :=
  artigos_ordenados.filter (fun a => decide (0 < a.relevancia))

/-- A spaCy token, with its lemma and its stop-word / punctuation flags. -/
structure Token where
  lemma_ : String
  is_stop : Bool
  is_punct : Bool

/-- The body of `preprocessar_texto(texto, idioma)`: run the Portuguese
pipeline when `idioma == "pt"`, the English one otherwise, then keep the
lemmas of tokens that are neither stop words nor punctuation.  The two loaded
spaCy pipelines `nlp_en`, `nlp_pt` are external resources and enter as
parameters. -/
def preprocessar_texto (nlp_en nlp_pt : String → List Token)
    (texto : String) (idioma : String) : List String :=
  let doc := if idioma = "pt" then nlp_pt texto else nlp_en texto
  (doc.filter (fun token => !token.is_stop && !token.is_punct)).map
    (fun token => token.lemma_)

/-- A response of `requests.get(link, stream=True)`: status code and body
bytes (the concatenation of the streamed chunks). -/
structure HttpResposta where
  status_code : Nat
  content : List Nat
deriving Repr, DecidableEq

/-- The file-system state touched by `baixar_pdf`: existing directories and
written files (path paired with bytes). -/
structure SistemaArquivos where
  dirs : List String
  files : List (String × List Nat)
deriving Repr, DecidableEq

/-- Lines `if not os.path.exists(pasta_destino): os.makedirs(pasta_destino)`
of `baixar_pdf`. -/
def criarPasta (pasta_destino : String) (fs : SistemaArquivos) : SistemaArquivos :=
  if pasta_destino ∈ fs.dirs then fs
  else { fs with dirs := pasta_destino :: fs.dirs }

/-- The body of `baixar_pdf(artigo, pasta_destino)`.  `artigo.get("link")` is
falsy exactly on the empty string; the try block catches any exception of the
request (modelled by `Except.error`) and of the write, so the function
returns a flag instead of raising: `True` only after writing the streamed
bytes to `pasta_destino/titulo[:50].pdf`. -/
def baixar_pdf (get : String → Except String HttpResposta)
    (artigo : Artigo) (pasta_destino : String) (fs : SistemaArquivos) :
    SistemaArquivos × Bool :=
  if artigo.link ≠ "" then
    match get artigo.link with
    | Except.ok response =>
      if response.status_code = 200 then
        ({ criarPasta pasta_destino fs with
            files := (pasta_destino ++ "/" ++ artigo.titulo.take 50 ++ ".pdf",
                      response.content) :: (criarPasta pasta_destino fs).files }, true)
      else (criarPasta pasta_destino fs, false)
    | Except.error _ => (criarPasta pasta_destino fs, false)
  else (criarPasta pasta_destino fs, false)

/-- Decimal digit character. -/
def digitChar (d : Nat) : Char := Char.ofNat (48 + d)

/-- Big-endian decimal digits of `n`; any `fuel > n` is enough. -/
def natStrAux : Nat → Nat → List Char
  | 0, _ => []
  | fuel + 1, n =>
    if n < 10 then [digitChar n]
    else natStrAux fuel (n / 10) ++ [digitChar (n % 10)]

/-- Decimal representation of a natural number. -/
def natStr (n : Nat) : List Char := natStrAux (n + 1) n

/-- Value of a big-endian digit string. -/
def valorDe (ds : List Char) : Nat :=
  ds.foldl (fun acc c => 10 * acc + (c.toNat - 48)) 0

/-- Lowercase hexadecimal digit. -/
def hexDigit (d : Nat) : Char :=
  if d < 10 then Char.ofNat (48 + d) else Char.ofNat (87 + d)

/-- Value of a hexadecimal digit character, lowercase letters only (the
escapes emitted by the serializer are lowercase). -/
def hexVal (c : Char) : Option Nat :=
  if 48 ≤ c.toNat ∧ c.toNat ≤ 57 then some (c.toNat - 48)
  else if 97 ≤ c.toNat ∧ c.toNat ≤ 102 then some (c.toNat - 87)
  else none

/-- JSON escaping of one character with `ensure_ascii=False`: only the quote,
the backslash and control characters are escaped; non-ASCII characters pass
through literally. -/
def escapeChar (c : Char) : List Char :=
  if c = '"' then ['\\', '"']
  else if c = '\\' then ['\\', '\\']
  else if c.toNat < 32 then
    ['\\', 'u', '0', '0', hexDigit (c.toNat / 16), hexDigit (c.toNat % 16)]
  else [c]

/-- JSON escaping of a character stream. -/
def escapeList : List Char → List Char
  | [] => []
  | c :: cs => escapeChar c ++ escapeList cs

/-- A JSON string literal. -/
def strLit (s : String) : List Char := '"' :: escapeList s.toList ++ ['"']

/-- Decimal rendering of a rational with finite decimal expansion (every
Python float is such a rational); the exponent `q.den` is always sufficient
when `q.den` divides a power of 10. -/
def ratStr (q : ℚ) : List Char :=
  (if q.num < 0 then ['-'] else []) ++
    natStr (q.num.natAbs * (10 ^ q.den / q.den) / 10 ^ q.den) ++
    '.' :: (List.replicate
        (q.den - (natStr (q.num.natAbs * (10 ^ q.den / q.den) % 10 ^ q.den)).length) '0' ++
      natStr (q.num.natAbs * (10 ^ q.den / q.den) % 10 ^ q.den))

/-- Indentation of `n` spaces (`json.dump(..., indent=4)`). -/
def ind (n : Nat) : List Char := List.replicate n ' '

/-- One serialized key/value pair with a string value. -/
def printCampoString (nome valor : String) : List Char :=
  strLit nome ++ ':' :: ' ' :: strLit valor

/-- One serialized key/value pair with a numeric value. -/
def printCampoNumero (nome : String) (q : ℚ) : List Char :=
  strLit nome ++ ':' :: ' ' :: ratStr q

/-- One serialized article object, keys in insertion order
(`titulo`, `resumo`, `link`, `relevancia`), nested at depth one of
`indent=4` pretty-printing. -/
def printArtigo (a : Artigo) : List Char :=
  '\x7b' :: '\n' :: ind 8 ++ printCampoString "titulo" a.titulo ++ ',' :: '\n' :: ind 8 ++
    printCampoString "resumo" a.resumo ++ ',' :: '\n' :: ind 8 ++
    printCampoString "link" a.link ++ ',' :: '\n' :: ind 8 ++
    printCampoNumero "relevancia" a.relevancia ++ '\n' :: ind 4 ++ ['\x7d']

/-- The comma-separated, indented items of the serialized list. -/
def printItens : List Artigo → List Char
  | [] => []
  | [a] => ind 4 ++ printArtigo a
  | a :: resto => ind 4 ++ printArtigo a ++ ',' :: '\n' :: printItens resto

/-- The body of `salvar_artigos(artigos, caminho)`: the exact text
`json.dump(artigos, f, ensure_ascii=False, indent=4)` writes (the characters
of the UTF-8 document; numbers rendered as exact finite decimals, which is
value-preserving for every Python float). -/
def salvar_artigos (artigos : List Artigo) : String :=
  match artigos with
  | [] => String.mk ['[', ']']
  | _ => String.mk ('[' :: '\n' :: printItens artigos ++ '\n' :: [']'])

/-- JSON insignificant whitespace. -/
def isWs (c : Char) : Bool := c = ' ' || c = '\n' || c = '\t' || c = '\r'

/-- Drops insignificant whitespace. -/
def skipWs (cs : List Char) : List Char := cs.dropWhile isWs

/-- Consumes one expected punctuation character, whitespace-insensitively. -/
def esperar (c : Char) (cs : List Char) : Option (List Char) :=
  match skipWs cs with
  | c2 :: rest => if c2 = c then some rest else none
  | [] => none

/-- Parses the body of a JSON string literal up to the closing quote,
decoding the escapes the serializer can emit; `fuel` bounds the recursion
(one unit per decoded character, so the input length is always enough). -/
def parseStringAux : Nat → List Char → Option (List Char × List Char)
  | 0, _ => none
  | _ + 1, [] => none
  | fuel + 1, c :: rest =>
    if c = '"' then some ([], rest)
    else if c = '\\' then
      match rest with
      | [] => none
      | e :: rest2 =>
        if e = '"' then (parseStringAux fuel rest2).map (fun p => ('"' :: p.1, p.2))
        else if e = '\\' then (parseStringAux fuel rest2).map (fun p => ('\\' :: p.1, p.2))
        else if e = 'u' then
          match rest2 with
          | h1 :: h2 :: h3 :: h4 :: rest3 =>
            match hexVal h1, hexVal h2, hexVal h3, hexVal h4 with
            | some v1, some v2, some v3, some v4 =>
              (parseStringAux fuel rest3).map
                (fun p => (Char.ofNat (((v1 * 16 + v2) * 16 + v3) * 16 + v4) :: p.1, p.2))
            | _, _, _, _ => none
          | _ => none
        else none
    else (parseStringAux fuel rest).map (fun p => (c :: p.1, p.2))

/-- Parses one JSON string literal, whitespace-insensitively. -/
def parseString (cs : List Char) : Option (String × List Char) :=
  match skipWs cs with
  | c :: rest =>
    if c = '"' then
      (parseStringAux (rest.length + 1) rest).map (fun p => (String.mk p.1, p.2))
    else none
  | [] => none

/-- Parses the digits of a JSON number after the optional sign: integer
digits, point, fraction digits; the decoded value is scaled by the length of
the fraction. -/
def parseNumCorpo (neg : Bool) (cs2 : List Char) : Option (ℚ × List Char) :=
  if (cs2.takeWhile Char.isDigit).isEmpty then none
  else
    match cs2.dropWhile Char.isDigit with
    | c :: cs4 =>
      if c = '.' then
        if (cs4.takeWhile Char.isDigit).isEmpty then none
        else
          some
            ((if neg then
                -(((valorDe (cs2.takeWhile Char.isDigit) *
                        10 ^ (cs4.takeWhile Char.isDigit).length +
                      valorDe (cs4.takeWhile Char.isDigit) : ℕ) : ℚ) /
                    ((10 ^ (cs4.takeWhile Char.isDigit).length : ℕ) : ℚ))
              else
                ((valorDe (cs2.takeWhile Char.isDigit) *
                      10 ^ (cs4.takeWhile Char.isDigit).length +
                    valorDe (cs4.takeWhile Char.isDigit) : ℕ) : ℚ) /
                  ((10 ^ (cs4.takeWhile Char.isDigit).length : ℕ) : ℚ)),
             cs4.dropWhile Char.isDigit)
      else none
    | [] => none

/-- Parses one JSON number of the shape the serializer emits (optional sign,
integer digits, point, fraction digits), whitespace-insensitively. -/
def parseNumero (cs : List Char) : Option (ℚ × List Char) :=
  match skipWs cs with
  | c :: r => if c = '-' then parseNumCorpo true r else parseNumCorpo false (c :: r)
  | [] => none

/-- Parses one `"key": value` pair with a string value and checks the key. -/
def parseCampoString (nome : String) (cs : List Char) : Option (String × List Char) :=
  match parseString cs with
  | some (k, cs1) =>
    if k = nome then
      match esperar ':' cs1 with
      | some cs2 => parseString cs2
      | none => none
    else none
  | none => none

/-- Parses one `"key": value` pair with a numeric value and checks the key. -/
def parseCampoNumero (nome : String) (cs : List Char) : Option (ℚ × List Char) :=
  match parseString cs with
  | some (k, cs1) =>
    if k = nome then
      match esperar ':' cs1 with
      | some cs2 => parseNumero cs2
      | none => none
    else none
  | none => none

/-- Parses one serialized article object. -/
def parseArtigo (cs : List Char) : Option (Artigo × List Char) :=
  match esperar '\x7b' cs with
  | none => none
  | some cs0 =>
    match parseCampoString "titulo" cs0 with
    | none => none
    | some (t, cs1) =>
      match esperar ',' cs1 with
      | none => none
      | some cs1b =>
        match parseCampoString "resumo" cs1b with
        | none => none
        | some (r, cs2) =>
          match esperar ',' cs2 with
          | none => none
          | some cs2b =>
            match parseCampoString "link" cs2b with
            | none => none
            | some (l, cs3) =>
              match esperar ',' cs3 with
              | none => none
              | some cs3b =>
                match parseCampoNumero "relevancia" cs3b with
                | none => none
                | some (q, cs4) =>
                  match esperar '\x7d' cs4 with
                  | none => none
                  | some cs5 =>
                    some ({ titulo := t, resumo := r, link := l, relevancia := q }, cs5)

/-- Parses the comma-separated article objects up to the closing bracket;
`fuel` bounds the recursion (one unit per article). -/
def parseItens : Nat → List Char → Option (List Artigo × List Char)
  | 0, _ => none
  | fuel + 1, cs =>
    match parseArtigo cs with
    | none => none
    | some (a, cs1) =>
      match skipWs cs1 with
      | c :: cs2 =>
        if c = ',' then (parseItens fuel cs2).map (fun p => (a :: p.1, p.2))
        else if c = ']' then some ([a], cs2)
        else none
      | [] => none

/-- The model of `json.load` on the serialized document: parses the article
list back, requiring only whitespace after the closing bracket. -/
def carregar_artigos (s : String) : Option (List Artigo) :=
  match esperar '[' s.toList with
  | none => none
  | some cs =>
    if (skipWs cs).head? = some ']' then
      if (skipWs (skipWs cs).tail).isEmpty then some [] else none
    else
      match parseItens (cs.length + 1) cs with
      | none => none
      | some (lista, cs2) => if (skipWs cs2).isEmpty then some lista else none

/-- Evaluation of `calcular_relevancia` on the mixed input: a sentinel-abstract
article followed by an article whose abstract is literally the query. -/
theorem entradaMista_eval :
    calcular_relevancia simExata [] [] [artigoSemResumo, artigoNoTema]
        "graph neural networks" "en" =
      Except.ok [{ artigoSemResumo with relevancia := 1 },
                 { artigoNoTema with relevancia := 0 }] := by
  have hvoc : temVocabulario (escolher_stop_words [] [] "en")
      (textosDe [artigoSemResumo, artigoNoTema] ++ ["graph neural networks"]) = true := by
    decide
  have hatt : atribuirRelevancias [artigoSemResumo, artigoNoTema]
      (simExata (textosDe [artigoSemResumo, artigoNoTema]) "graph neural networks") =
      [{ artigoSemResumo with relevancia := 1 }, { artigoNoTema with relevancia := 0 }] := by
    decide
  unfold calcular_relevancia
  rw [if_pos hvoc, if_neg (by decide), hatt, List.mergeSort_of_sorted (by decide)]

/-- C1: at the failing input `[artigoSemResumo, artigoNoTema]` with reference
term "graph neural networks", the code assigns the sentinel-abstract article
the similarity computed for the other article's abstract (relevance 1), and
assigns the on-topic article relevance 0 — contradicting both "sentinel ⇒
relevance 0" and "each non-excluded article gets its own similarity": the
loop indexes `similaridades` by position in the unfiltered list. -/
theorem c1_sentinel_steals_score :
    calcular_relevancia simExata [] [] [artigoSemResumo, artigoNoTema]
        "graph neural networks" "en" =
      Except.ok [{ artigoSemResumo with relevancia := 1 },
                 { artigoNoTema with relevancia := 0 }] ∧
    ({ artigoSemResumo with relevancia := (1 : ℚ) }).resumo = resumoNaoDisponivel ∧
    (1 : ℚ) ≠ 0 :=
  ⟨entradaMista_eval, by decide, by norm_num⟩

/-- C2 counterexample: with the stop-word list containing "of", an article
whose abstract is "of" and the reference term "of", every document is empty
after stop-word removal, and `calcular_relevancia` propagates the vectorizer's
`empty vocabulary` error instead of assigning every article relevance 0 —
there is no try/except around `fit_transform`. -/
theorem c2_all_stopwords_raises :
    calcular_relevancia simExata [] ["of"] [artigoSoParada] "of" "en" =
      Except.error "empty vocabulary" ∧
    (Except.error "empty vocabulary" :
        Except String (List Artigo)) ≠
      Except.ok [{ artigoSoParada with relevancia := 0 }] := by
  constructor
  · unfold calcular_relevancia
    rw [if_neg (by decide)]
  · intro h
    cases h

/-- C2 amended: whenever every document (the non-sentinel abstracts plus the
reference term) is empty after tokenization and stop-word removal,
`calcular_relevancia` raises — it propagates the `empty vocabulary` error of
`fit_transform` rather than falling back to relevance 0. -/
theorem c2_empty_vocabulary_propagates (simFn : List String → String → List ℚ)
    (swPt swEn : List String) (artigos : List Artigo) (termo idioma : String)
    (h : temVocabulario (escolher_stop_words swPt swEn idioma)
          (textosDe artigos ++ [termo]) = false) :
    calcular_relevancia simFn swPt swEn artigos termo idioma =
      Except.error "empty vocabulary" := by
  unfold calcular_relevancia
  rw [if_neg (by simp [h])]

/-- Witness for `c2_empty_vocabulary_propagates` at a concrete input. -/
theorem c2_empty_vocabulary_propagates_witness :
    calcular_relevancia simExata [] ["of"] [artigoSoParada] "of" "en" =
      Except.error "empty vocabulary" :=
  c2_empty_vocabulary_propagates simExata [] ["of"] [artigoSoParada] "of" "en" (by decide)

/-- Transitivity of the descending-relevance comparison. -/
theorem porRelevanciaDesc_trans (a b c : Artigo) :
    porRelevanciaDesc a b → porRelevanciaDesc b c → porRelevanciaDesc a c := by
  simp only [porRelevanciaDesc, decide_eq_true_iff]
  exact fun h1 h2 => le_trans h2 h1

/-- Totality of the descending-relevance comparison. -/
theorem porRelevanciaDesc_total (a b : Artigo) :
    porRelevanciaDesc a b || porRelevanciaDesc b a := by
  simp only [porRelevanciaDesc, Bool.or_eq_true, decide_eq_true_iff]
  exact le_total b.relevancia a.relevancia

/-- C3: whenever `calcular_relevancia` returns a list, that list is sorted
with non-increasing relevance, and it is a stable reordering: for every
relevance value, the articles carrying that value appear in the same order as
in the (relevance-annotated) input list. -/
theorem c3_sorted_stable (simFn : List String → String → List ℚ)
    (swPt swEn : List String) (artigos : List Artigo) (termo idioma : String)
    (saida : List Artigo)
    (h : calcular_relevancia simFn swPt swEn artigos termo idioma = Except.ok saida) :
    saida.Pairwise (fun a b => b.relevancia ≤ a.relevancia) ∧
    ∀ r : ℚ,
      saida.filter (fun a => decide (a.relevancia = r)) =
        (atribuirRelevancias artigos (simFn (textosDe artigos) termo)).filter
          (fun a => decide (a.relevancia = r)) := by
  unfold calcular_relevancia at h
  split at h
  · split at h
    · cases h
    · injection h with h
      subst h
      constructor
      · exact (List.sorted_mergeSort porRelevanciaDesc_trans porRelevanciaDesc_total _).imp
          (fun hab => by simpa [porRelevanciaDesc, decide_eq_true_iff] using hab)
      · intro r
        set l := atribuirRelevancias artigos
          (simFn (textosDe artigos) termo) with hl
        set p : Artigo → Bool := fun a => decide (a.relevancia = r) with hp
        have hperm : List.Perm (List.filter p (l.mergeSort porRelevanciaDesc)) (List.filter p l) :=
          (List.mergeSort_perm l porRelevanciaDesc).filter p
        have hpw : (List.filter p l).Pairwise (fun a b => porRelevanciaDesc a b = true) := by
          apply List.pairwise_of_forall_mem_list
          intro a ha b hb
          have har : a.relevancia = r := by
            simpa [hp] using (List.mem_filter.mp ha).2
          have hbr : b.relevancia = r := by
            simpa [hp] using (List.mem_filter.mp hb).2
          simp [porRelevanciaDesc, har, hbr]
        have hsub : List.Sublist (List.filter p l) (l.mergeSort porRelevanciaDesc) :=
          List.sublist_mergeSort porRelevanciaDesc_trans porRelevanciaDesc_total hpw
            (List.filter_sublist l)
        have hsub2 : List.Sublist (List.filter p l)
            (List.filter p (l.mergeSort porRelevanciaDesc)) := by
          have h2 := hsub.filter p
          simpa using h2
        exact (hsub2.eq_of_length hperm.length_eq.symm).symm
  · cases h

/-- Witness for `c3_sorted_stable` at the concrete mixed input. -/
theorem c3_sorted_stable_witness :
    ([{ artigoSemResumo with relevancia := (1 : ℚ) },
      { artigoNoTema with relevancia := (0 : ℚ) }] : List Artigo).Pairwise
        (fun a b => b.relevancia ≤ a.relevancia) :=
  (c3_sorted_stable simExata [] [] [artigoSemResumo, artigoNoTema]
    "graph neural networks" "en" _ entradaMista_eval).1

/-- C4 counterexample: on the empty article list with the empty query, the
only document handed to the vectorizer is the query, it contains no
vocabulary token, and the `empty vocabulary` error propagates — the function
does not return the empty list. -/
theorem c4_empty_list_empty_query_raises :
    calcular_relevancia simExata [] [] [] "" "en" =
      Except.error "empty vocabulary" ∧
    (Except.error "empty vocabulary" : Except String (List Artigo)) ≠
      Except.ok [] := by
  constructor
  · unfold calcular_relevancia
    rw [if_neg (by decide)]
  · intro h
    cases h

/-- C4 amended: whenever no abstract survives the sentinel filter — the empty
article list included — `calcular_relevancia` never returns a list: it raises
the vectorizer's `empty vocabulary` error when the query too has no
vocabulary term, and otherwise `cosine_similarity` raises the zero-sample
error of `check_pairwise_arrays` on the rowless document matrix. -/
theorem c4_empty_list_raises (simFn : List String → String → List ℚ)
    (swPt swEn : List String) (artigos : List Artigo) (termo idioma : String)
    (h : textosDe artigos = []) :
    (calcular_relevancia simFn swPt swEn artigos termo idioma =
        Except.error "empty vocabulary" ∨
      calcular_relevancia simFn swPt swEn artigos termo idioma =
        Except.error "Found array with 0 sample(s)") ∧
    ∀ lista : List Artigo,
      calcular_relevancia simFn swPt swEn artigos termo idioma ≠ Except.ok lista := by
  unfold calcular_relevancia
  rw [h]
  by_cases hvoc : temVocabulario (escolher_stop_words swPt swEn idioma)
      (([] : List String) ++ [termo]) = true
  · rw [if_pos hvoc, if_pos rfl]
    exact ⟨Or.inr rfl, fun lista h2 => by cases h2⟩
  · rw [if_neg hvoc]
    exact ⟨Or.inl rfl, fun lista h2 => by cases h2⟩

/-- Witness for `c4_empty_list_raises`: the empty list with a
vocabulary-bearing query hits the zero-sample error. -/
theorem c4_empty_list_raises_witness :
    (calcular_relevancia simExata [] [] [] "graph" "en" =
        Except.error "empty vocabulary" ∨
      calcular_relevancia simExata [] [] [] "graph" "en" =
        Except.error "Found array with 0 sample(s)") ∧
    ∀ lista : List Artigo,
      calcular_relevancia simExata [] [] [] "graph" "en" ≠ Except.ok lista :=
  c4_empty_list_raises simExata [] [] [] "graph" "en" rfl

/-- C5 counterexample: when the remote call raises (here a connection error),
`coletar_artigos` propagates the exception — it does not return the empty
list, since no try/except surrounds `requests.get`. -/
theorem c5_exception_propagates :
    coletar_artigos (Except.error "ConnectionError") 10 =
      Except.error "ConnectionError" ∧
    (Except.error "ConnectionError" : Except String (List Artigo)) ≠ Except.ok [] := by
  exact ⟨rfl, by intro h; cases h⟩

/-- C5 amended: whenever the remote call returns a response (no exception),
`coletar_artigos` returns a list of at most `max_resultados` records, each
built from a retrieved result with the documented defaults, and a non-200
status yields the empty list. -/
theorem c5_bounded_or_empty (response : SerpResponse) (max_resultados : Nat) :
    ∃ lista, coletar_artigos (Except.ok response) max_resultados = Except.ok lista ∧
      lista.length ≤ max_resultados ∧
      (response.status_code ≠ 200 → lista = []) ∧
      ∀ a ∈ lista, ∃ r ∈ response.organic_results, a = artigoDeResultado r := by
  by_cases h : response.status_code = 200
  · refine ⟨(response.organic_results.take max_resultados).map artigoDeResultado,
      ?_, ?_, ?_, ?_⟩
    · show (if response.status_code = 200 then
          Except.ok ((response.organic_results.take max_resultados).map artigoDeResultado)
        else Except.ok []) = _
      rw [if_pos h]
    · simp
    · intro hne
      exact absurd h hne
    · intro a ha
      obtain ⟨r, hr, rfl⟩ := List.mem_map.mp ha
      exact ⟨r, List.mem_of_mem_take hr, rfl⟩
  · refine ⟨[], ?_, by simp, fun _ => rfl, by simp⟩
    show (if response.status_code = 200 then
        Except.ok ((response.organic_results.take max_resultados).map artigoDeResultado)
      else Except.ok []) = _
    rw [if_neg h]

/-- Witness for `c5_bounded_or_empty` at a concrete response. -/
theorem c5_bounded_or_empty_witness :
    ∃ lista,
      coletar_artigos
          (Except.ok { status_code := 200,
                       organic_results := [{ title := some "T", snippet := none,
                                             link := some "L" }] }) 1 =
        Except.ok lista ∧
      lista.length ≤ 1 ∧
      (({ status_code := 200,
          organic_results := [{ title := some "T", snippet := none,
                                link := some "L" }] } : SerpResponse).status_code ≠ 200 →
        lista = []) ∧
      ∀ a ∈ lista,
        ∃ r ∈ ({ status_code := 200,
                 organic_results := [{ title := some "T", snippet := none,
                                       link := some "L" }] } : SerpResponse).organic_results,
          a = artigoDeResultado r :=
  c5_bounded_or_empty _ 1

/-- C6: exactly the articles with relevance strictly greater than 0 survive
the export filter, and every article with relevance 0 is dropped. -/
theorem c6_threshold_exact (artigos_ordenados : List Artigo) (a : Artigo) :
    (a ∈ artigos_relevantes artigos_ordenados ↔
      a ∈ artigos_ordenados ∧ 0 < a.relevancia) ∧
    (a.relevancia = 0 → a ∉ artigos_relevantes artigos_ordenados) := by
  constructor
  · unfold artigos_relevantes
    rw [List.mem_filter]
    simp
  · intro h0 hmem
    have := (List.mem_filter.mp hmem).2
    rw [h0] at this
    simp at this

/-- Witness for `c6_threshold_exact`: a zero-relevance article is dropped. -/
theorem c6_threshold_exact_witness :
    { artigoNoTema with relevancia := (0 : ℚ) } ∉
      artigos_relevantes [{ artigoSemResumo with relevancia := 1 },
                          { artigoNoTema with relevancia := 0 }] :=
  (c6_threshold_exact _ _).2 rfl

/-- C9: for every tag other than "pt" — unsupported tags included —
`preprocessar_texto` behaves exactly as with the English tag (default on
invalid), and the stop-word selection of `calcular_relevancia` picks the
Portuguese list exactly for "pt" and the built-in English list for every
other tag. -/
theorem c9_default_on_invalid :
    (∀ (nlp_en nlp_pt : String → List Token) (texto idioma : String),
      idioma ≠ "pt" →
        preprocessar_texto nlp_en nlp_pt texto idioma =
          preprocessar_texto nlp_en nlp_pt texto "en") ∧
    (∀ swPt swEn : List String, escolher_stop_words swPt swEn "pt" = swPt) ∧
    (∀ (swPt swEn : List String) (idioma : String),
      idioma ≠ "pt" → escolher_stop_words swPt swEn idioma = swEn) := by
  refine ⟨?_, ?_, ?_⟩
  · intro nlp_en nlp_pt texto idioma hne
    unfold preprocessar_texto
    rw [if_neg hne, if_neg (by decide)]
  · intro swPt swEn
    unfold escolher_stop_words
    rw [if_pos rfl]
  · intro swPt swEn idioma hne
    unfold escolher_stop_words
    rw [if_neg hne]

/-- Witness for `c9_default_on_invalid` at the unsupported tag "fr". -/
theorem c9_default_on_invalid_witness :
    preprocessar_texto (fun _ => []) (fun _ => []) "texto" "fr" =
      preprocessar_texto (fun _ => []) (fun _ => []) "texto" "en" ∧
    escolher_stop_words ["de"] ["the"] "fr" = ["the"] :=
  ⟨c9_default_on_invalid.1 _ _ "texto" "fr" (by decide),
   c9_default_on_invalid.2.2 ["de"] ["the"] "fr" (by decide)⟩

/-- C10: when `calcular_relevancia` returns normally, the returned list is a
permutation of the input records after the in-place relevance assignment (no
record discarded), the assignment step keeps the list length, and it leaves
`titulo`, `resumo` and `link` of every record unchanged — the in-place
mutation of the Python dicts is rendered by the explicit
`atribuirRelevancias` state. -/
theorem c10_perm_frame (simFn : List String → String → List ℚ)
    (swPt swEn : List String) (artigos : List Artigo) (termo idioma : String)
    (saida : List Artigo)
    (h : calcular_relevancia simFn swPt swEn artigos termo idioma = Except.ok saida) :
    List.Perm saida (atribuirRelevancias artigos (simFn (textosDe artigos) termo)) ∧
    (atribuirRelevancias artigos (simFn (textosDe artigos) termo)).length =
      artigos.length ∧
    ∀ i : Nat,
      ((atribuirRelevancias artigos (simFn (textosDe artigos) termo))[i]?).map
          Artigo.titulo = (artigos[i]?).map Artigo.titulo ∧
      ((atribuirRelevancias artigos (simFn (textosDe artigos) termo))[i]?).map
          Artigo.resumo = (artigos[i]?).map Artigo.resumo ∧
      ((atribuirRelevancias artigos (simFn (textosDe artigos) termo))[i]?).map
          Artigo.link = (artigos[i]?).map Artigo.link := by
  refine ⟨?_, by simp [atribuirRelevancias], ?_⟩
  · unfold calcular_relevancia at h
    split at h
    · split at h
      · cases h
      · injection h with h
        subst h
        exact List.mergeSort_perm _ _
    · cases h
  · intro i
    refine ⟨?_, ?_, ?_⟩ <;>
      · simp only [atribuirRelevancias, List.getElem?_mapIdx, Option.map_map]
        cases artigos[i]? <;> rfl

/-- Witness for `c10_perm_frame` at the concrete mixed input. -/
theorem c10_perm_frame_witness :
    List.Perm
      [{ artigoSemResumo with relevancia := (1 : ℚ) },
       { artigoNoTema with relevancia := (0 : ℚ) }]
      (atribuirRelevancias [artigoSemResumo, artigoNoTema]
        (simExata (textosDe [artigoSemResumo, artigoNoTema]) "graph neural networks")) :=
  (c10_perm_frame simExata [] [] [artigoSemResumo, artigoNoTema]
    "graph neural networks" "en" _ entradaMista_eval).1

/-- The destination directory exists after `criarPasta`. -/
theorem mem_criarPasta (pasta_destino : String) (fs : SistemaArquivos) :
    pasta_destino ∈ (criarPasta pasta_destino fs).dirs := by
  unfold criarPasta
  by_cases h : pasta_destino ∈ fs.dirs
  · rw [if_pos h]; exact h
  · rw [if_neg h]; exact List.mem_cons_self _ _

/-- C7: `baixar_pdf` is total on every oracle outcome (never raises past its
boundary — its result type is a plain flag, not an `Except`); the flag is
`True` exactly when the link is non-empty, the request returns a response
rather than raising, and the status is 200; on success the downloaded bytes
are stored under the name built from the first 50 characters of the title
inside the destination directory; and the destination directory exists
afterwards (created if absent). -/
theorem c7_baixar_pdf_spec (get : String → Except String HttpResposta)
    (artigo : Artigo) (pasta_destino : String) (fs : SistemaArquivos) :
    ((baixar_pdf get artigo pasta_destino fs).2 = true ↔
      artigo.link ≠ "" ∧ ∃ response, get artigo.link = Except.ok response ∧
        response.status_code = 200) ∧
    (∀ response, get artigo.link = Except.ok response →
      response.status_code = 200 → artigo.link ≠ "" →
      (pasta_destino ++ "/" ++ artigo.titulo.take 50 ++ ".pdf", response.content) ∈
        (baixar_pdf get artigo pasta_destino fs).1.files) ∧
    pasta_destino ∈ (baixar_pdf get artigo pasta_destino fs).1.dirs := by
  unfold baixar_pdf
  by_cases hlink : artigo.link = ""
  · rw [if_neg (by simp [hlink])]
    exact ⟨by simp [hlink], by simp [hlink], mem_criarPasta _ _⟩
  · rw [if_pos hlink]
    cases hget : get artigo.link with
    | error e =>
      dsimp only
      refine ⟨by simp, ?_, mem_criarPasta _ _⟩
      intro response hresp
      cases hresp
    | ok response =>
      dsimp only
      by_cases hst : response.status_code = 200
      · rw [if_pos hst]
        refine ⟨?_, ?_, mem_criarPasta _ _⟩
        · simp only [true_iff]
          exact ⟨hlink, response, rfl, hst⟩
        · intro response2 hresp2 _ _
          injection hresp2 with hresp2
          subst hresp2
          exact List.mem_cons_self _ _
      · rw [if_neg hst]
        refine ⟨?_, ?_, mem_criarPasta _ _⟩
        · simp only [Bool.false_eq_true, false_iff]
          intro ⟨_, r2, hr2, hr200⟩
          injection hr2 with hr2
          subst hr2
          exact hst hr200
        · intro response2 hresp2 h200 _
          injection hresp2 with hresp2
          subst hresp2
          exact absurd h200 hst

/-- Witness for `c7_baixar_pdf_spec`: a successful concrete download. -/
theorem c7_baixar_pdf_spec_witness :
    (baixar_pdf (fun _ => Except.ok { status_code := 200, content := [37, 80, 68, 70] })
      artigoNoTema "pdfs" { dirs := [], files := [] }).2 = true :=
  (c7_baixar_pdf_spec (fun _ => Except.ok { status_code := 200, content := [37, 80, 68, 70] })
    artigoNoTema "pdfs" { dirs := [], files := [] }).1.mpr
    (by exact ⟨by decide, { status_code := 200, content := [37, 80, 68, 70] }, rfl, rfl⟩)

/-- Digit characters are digits and decode to their value. -/
theorem digitChar_spec : ∀ d < 10, (digitChar d).isDigit = true ∧ (digitChar d).toNat - 48 = d := by
  decide

/-- Folding the decimal accumulator from `a` over `l`. -/
theorem valorDe_foldl (l : List Char) : ∀ a : Nat,
    l.foldl (fun acc c => 10 * acc + (c.toNat - 48)) a = a * 10 ^ l.length + valorDe l := by
  induction l with
  | nil => intro a; simp [valorDe]
  | cons c l ih =>
    intro a
    show l.foldl _ (10 * a + (c.toNat - 48)) = _
    rw [ih]
    have h2 : valorDe (c :: l) = (c.toNat - 48) * 10 ^ l.length + valorDe l := by
      show l.foldl _ (10 * 0 + (c.toNat - 48)) = _
      rw [ih]
      ring_nf
    rw [h2]
    simp [List.length_cons]
    ring

/-- Value of a concatenation of digit strings. -/
theorem valorDe_append (xs ys : List Char) :
    valorDe (xs ++ ys) = valorDe xs * 10 ^ ys.length + valorDe ys := by
  show (xs ++ ys).foldl _ 0 = _
  rw [List.foldl_append]
  exact valorDe_foldl ys (valorDe xs)

/-- Leading zeros do not change the decoded value. -/
theorem valorDe_replicate_zero (z : Nat) (ds : List Char) :
    valorDe (List.replicate z '0' ++ ds) = valorDe ds := by
  rw [valorDe_append]
  have : valorDe (List.replicate z '0') = 0 := by
    induction z with
    | zero => simp [valorDe]
    | succ z ih =>
      rw [List.replicate_succ]
      show (List.replicate z '0').foldl _ (10 * 0 + ('0'.toNat - 48)) = 0
      rw [valorDe_foldl]
      simpa [valorDe] using ih
  rw [this]
  ring_nf

/-- Correctness of the decimal printer: value, non-emptiness, digit-ness. -/
theorem natStrAux_spec : ∀ (fuel n : Nat), n < fuel →
    valorDe (natStrAux fuel n) = n ∧ natStrAux fuel n ≠ [] ∧
      ∀ c ∈ natStrAux fuel n, c.isDigit = true := by
  intro fuel
  induction fuel with
  | zero => intro n h; omega
  | succ fuel ih =>
    intro n h
    by_cases h10 : n < 10
    · refine ⟨?_, by simp [natStrAux, h10], ?_⟩
      · simp only [natStrAux, if_pos h10]
        have := (digitChar_spec n h10).2
        simp [valorDe, this]
      · intro c hc
        simp only [natStrAux, if_pos h10, List.mem_singleton] at hc
        subst hc
        exact (digitChar_spec n h10).1
    · have hdiv : n / 10 < fuel := by
        have := Nat.div_lt_self (by omega : 0 < n) (by norm_num : 1 < 10)
        omega
      obtain ⟨ihv, ihne, ihd⟩ := ih (n / 10) hdiv
      simp only [natStrAux, if_neg h10]
      refine ⟨?_, by simp, ?_⟩
      · rw [valorDe_append, ihv]
        have hm : n % 10 < 10 := Nat.mod_lt _ (by norm_num)
        have := (digitChar_spec (n % 10) hm).2
        simp [valorDe, this]
        omega
      · intro c hc
        rcases List.mem_append.mp hc with hc | hc
        · exact ihd c hc
        · have hm : n % 10 < 10 := Nat.mod_lt _ (by norm_num)
          simp only [List.mem_singleton] at hc
          subst hc
          exact (digitChar_spec (n % 10) hm).1

/-- The printed decimal of `n` decodes to `n`, is nonempty, and is all
digits. -/
theorem natStr_spec (n : Nat) :
    valorDe (natStr n) = n ∧ natStr n ≠ [] ∧ ∀ c ∈ natStr n, c.isDigit = true :=
  natStrAux_spec (n + 1) n (Nat.lt_succ_self n)

/-- Length bound of the printed decimal. -/
theorem natStrAux_length_le : ∀ (fuel n e : Nat), n < fuel → 1 ≤ e → n < 10 ^ e →
    (natStrAux fuel n).length ≤ e := by
  intro fuel
  induction fuel with
  | zero => intro n e h; omega
  | succ fuel ih =>
    intro n e h he hpow
    by_cases h10 : n < 10
    · simp [natStrAux, h10]
      omega
    · have hdiv : n / 10 < fuel := by
        have := Nat.div_lt_self (by omega : 0 < n) (by norm_num : 1 < 10)
        omega
      have he2 : 2 ≤ e := by
        by_contra hcon
        have : e = 1 := by omega
        subst this
        simp at hpow
        omega
      have hdivpow : n / 10 < 10 ^ (e - 1) := by
        rw [Nat.div_lt_iff_lt_mul (by norm_num : 0 < 10)]
        have : 10 ^ (e - 1) * 10 = 10 ^ e := by
          rw [← pow_succ]
          congr 1
          omega
        omega
      have := ih (n / 10) (e - 1) hdiv (by omega) hdivpow
      simp only [natStrAux, if_neg h10]
      rw [List.length_append]
      simp
      omega

/-- Length bound for `natStr`. -/
theorem natStr_length_le (n e : Nat) (he : 1 ≤ e) (h : n < 10 ^ e) :
    (natStr n).length ≤ e :=
  natStrAux_length_le (n + 1) n e (Nat.lt_succ_self n) he h

/-- Whitespace prefixes are skipped. -/
theorem skipWs_append_ws (ws cs : List Char) (h : ∀ c ∈ ws, isWs c = true) :
    skipWs (ws ++ cs) = skipWs cs := by
  simp [skipWs, List.dropWhile_append_of_pos h]

/-- Skipping stops at a non-whitespace character. -/
theorem skipWs_cons_not (c : Char) (cs : List Char) (h : isWs c = false) :
    skipWs (c :: cs) = c :: cs := by
  simp [skipWs, List.dropWhile_cons, h]

/-- Consuming an expected non-whitespace character after a whitespace
prefix. -/
theorem esperar_eq (c : Char) (ws cs : List Char) (hws : ∀ x ∈ ws, isWs x = true)
    (hc : isWs c = false) : esperar c (ws ++ c :: cs) = some cs := by
  unfold esperar
  rw [skipWs_append_ws _ _ hws, skipWs_cons_not _ _ hc]
  simp

/-- Digits are not whitespace. -/
theorem isWs_eq_false_of_isDigit (c : Char) (h : c.isDigit = true) : isWs c = false := by
  by_contra hcon
  have hws : isWs c = true := by
    cases hx : isWs c
    · exact absurd hx hcon
    · rfl
  simp only [isWs, Bool.or_eq_true, decide_eq_true_iff] at hws
  rcases hws with ((h1 | h1) | h1) | h1 <;> subst h1 <;> simp [Char.isDigit] at h

/-- Digits are not the minus sign. -/
theorem ne_minus_of_isDigit (c : Char) (h : c.isDigit = true) : (c = '-') = False := by
  simp only [eq_iff_iff, iff_false]
  intro hc
  subst hc
  simp [Char.isDigit] at h

/-- Hexadecimal printing and reading are inverse on digit values. -/
theorem hexVal_hexDigit : ∀ d < 16, hexVal (hexDigit d) = some d := by
  decide

/-- Rebuilding a string from its characters. -/
theorem mk_toList (s : String) : String.mk s.toList = s := rfl

/-- The string-body parser undoes the JSON escaping, for every character
stream, whenever the fuel exceeds the decoded length. -/
theorem parseStringAux_escape (l : List Char) : ∀ (fuel : Nat) (rest : List Char),
    l.length < fuel →
    parseStringAux fuel (escapeList l ++ '"' :: rest) = some (l, rest) := by
  induction l with
  | nil =>
    intro fuel rest hf
    match fuel, hf with
    | f + 1, _ => rfl
  | cons c l ih =>
    intro fuel rest hf
    match fuel, hf with
    | f + 1, hf =>
    have hlt : l.length < f := by simp at hf; omega
    show parseStringAux (f + 1) (escapeChar c ++ escapeList l ++ '"' :: rest) = _
    by_cases h1 : c = '"'
    · subst h1
      show (parseStringAux f (escapeList l ++ '"' :: rest)).map (fun p => ('"' :: p.1, p.2)) = _
      rw [ih f rest hlt]
      rfl
    · by_cases h2 : c = '\\'
      · subst h2
        show (parseStringAux f (escapeList l ++ '"' :: rest)).map (fun p => ('\\' :: p.1, p.2)) = _
        rw [ih f rest hlt]
        rfl
      · by_cases h3 : c.toNat < 32
        · have hv3 : hexVal (hexDigit (c.toNat / 16)) = some (c.toNat / 16) :=
            hexVal_hexDigit _ (by omega)
          have hv4 : hexVal (hexDigit (c.toNat % 16)) = some (c.toNat % 16) :=
            hexVal_hexDigit _ (Nat.mod_lt _ (by norm_num))
          simp only [escapeChar, if_neg h1, if_neg h2, if_pos h3, List.cons_append,
            List.append_assoc, List.nil_append]
          show (match hexVal '0', hexVal '0', hexVal (hexDigit (c.toNat / 16)),
              hexVal (hexDigit (c.toNat % 16)) with
            | some v1, some v2, some v3, some v4 =>
              (parseStringAux f (escapeList l ++ '"' :: rest)).map
                (fun p : List Char × List Char =>
                  (Char.ofNat (((v1 * 16 + v2) * 16 + v3) * 16 + v4) :: p.1, p.2))
            | _, _, _, _ => none) = _
          rw [show hexVal '0' = some 0 from by decide, hv3, hv4]
          show (parseStringAux f (escapeList l ++ '"' :: rest)).map
              (fun p : List Char × List Char =>
                (Char.ofNat (((0 * 16 + 0) * 16 + c.toNat / 16) * 16 + c.toNat % 16)
                  :: p.1, p.2)) = _
          rw [ih f rest hlt]
          have harg : ((0 * 16 + 0) * 16 + c.toNat / 16) * 16 + c.toNat % 16 = c.toNat := by
            omega
          rw [harg, Char.ofNat_toNat]
          rfl
        · simp only [escapeChar, if_neg h1, if_neg h2, if_neg h3, List.cons_append,
            List.nil_append]
          simp only [parseStringAux, if_neg h1, if_neg h2]
          rw [ih f rest hlt]
          rfl

/-- Escaping never shrinks a character stream. -/
theorem length_le_escapeList : ∀ l : List Char, l.length ≤ (escapeList l).length := by
  intro l
  induction l with
  | nil => simp [escapeList]
  | cons c l ih =>
    show (c :: l).length ≤ (escapeChar c ++ escapeList l).length
    rw [List.length_append, List.length_cons]
    have h1 : 1 ≤ (escapeChar c).length := by
      unfold escapeChar
      by_cases h1 : c = '"'
      · simp [h1]
      · by_cases h2 : c = '\\'
        · simp [h1, h2]
        · by_cases h3 : c.toNat < 32 <;> simp [h1, h2, h3]
    omega

/-- Parsing a serialized string literal after a whitespace prefix recovers the
string, non-ASCII characters included. -/
theorem parseString_strLit (s : String) (ws rest : List Char)
    (hws : ∀ x ∈ ws, isWs x = true) :
    parseString (ws ++ strLit s ++ rest) = some (s, rest) := by
  unfold parseString strLit
  rw [show (ws ++ ('"' :: escapeList s.toList ++ ['"']) ++ rest : List Char) =
      ws ++ '"' :: (escapeList s.toList ++ '"' :: rest) from by simp]
  rw [skipWs_append_ws _ _ hws, skipWs_cons_not _ _ (by decide)]
  dsimp only
  rw [if_pos rfl]
  rw [parseStringAux_escape s.toList _ rest (by
    have h := length_le_escapeList s.toList
    rw [List.length_append, List.length_cons]
    omega)]
  rfl

/-- A digit run followed by a non-digit splits cleanly under
`takeWhile`/`dropWhile`. -/
theorem takeWhile_digits_append (ds rest : List Char)
    (hds : ∀ c ∈ ds, c.isDigit = true)
    (hrest : ∀ c, rest.head? = some c → c.isDigit = false) :
    (ds ++ rest).takeWhile Char.isDigit = ds ∧
      (ds ++ rest).dropWhile Char.isDigit = rest := by
  constructor
  · rw [List.takeWhile_append_of_pos hds]
    cases rest with
    | nil => simp
    | cons c r =>
      rw [List.takeWhile_cons, hrest c rfl]
      simp
  · rw [List.dropWhile_append_of_pos hds]
    cases rest with
    | nil => simp
    | cons c r =>
      rw [List.dropWhile_cons, hrest c rfl]
      simp

/-- The number-body parser on a printed digit block. -/
theorem parseNumCorpo_digits (neg : Bool) (ds1 ds2 rest : List Char)
    (h1 : ds1 ≠ []) (hd1 : ∀ c ∈ ds1, c.isDigit = true)
    (h2 : ds2 ≠ []) (hd2 : ∀ c ∈ ds2, c.isDigit = true)
    (hrest : ∀ c, rest.head? = some c → c.isDigit = false) :
    parseNumCorpo neg (ds1 ++ '.' :: (ds2 ++ rest)) =
      some
        ((if neg then
            -(((valorDe ds1 * 10 ^ ds2.length + valorDe ds2 : ℕ) : ℚ) /
              ((10 ^ ds2.length : ℕ) : ℚ))
          else
            ((valorDe ds1 * 10 ^ ds2.length + valorDe ds2 : ℕ) : ℚ) /
              ((10 ^ ds2.length : ℕ) : ℚ)),
         rest) := by
  obtain ⟨ht1, hdr1⟩ := takeWhile_digits_append ds1 ('.' :: (ds2 ++ rest)) hd1
    (by intro c hc; injection hc with hc; subst hc; decide)
  obtain ⟨ht2, hdr2⟩ := takeWhile_digits_append ds2 rest hd2 hrest
  unfold parseNumCorpo
  rw [ht1, hdr1, if_neg (by simp only [List.isEmpty_iff]; exact h1)]
  dsimp only
  rw [if_pos rfl, ht2, hdr2, if_neg (by simp only [List.isEmpty_iff]; exact h2)]

/-- The printed decimal of a finite-decimal rational decodes to its absolute
value. -/
theorem ratStr_valor (q : ℚ) (hden : q.den ∣ 10 ^ q.den) :
    ((q.num.natAbs * (10 ^ q.den / q.den) : ℕ) : ℚ) / ((10 ^ q.den : ℕ) : ℚ) = |q| := by
  have hden0 : ((q.den : ℚ)) ≠ 0 := Nat.cast_ne_zero.mpr q.den_nz
  have hpow0 : ((10 : ℚ)) ^ q.den ≠ 0 := pow_ne_zero _ (by norm_num)
  rw [Nat.cast_mul, Nat.cast_div hden hden0, Int.cast_natAbs]
  push_cast
  have hdenpos : (0 : ℚ) < (q.den : ℚ) := by exact_mod_cast q.pos
  calc |(q.num : ℚ)| * ((10 : ℚ) ^ q.den / (q.den : ℚ)) / (10 : ℚ) ^ q.den
      = |(q.num : ℚ)| / (q.den : ℚ) := by
        field_simp
        ring
    _ = |(q.num : ℚ)| / |(q.den : ℚ)| := by rw [abs_of_pos hdenpos]
    _ = |(q.num : ℚ) / (q.den : ℚ)| := (abs_div _ _).symm
    _ = |q| := by rw [Rat.num_div_den]

/-- The number parser undoes the decimal printer on every finite-decimal
rational, after a whitespace prefix and before a non-digit continuation. -/
theorem parseNumero_ratStr (q : ℚ) (hden : q.den ∣ 10 ^ q.den) (ws rest : List Char)
    (hws : ∀ x ∈ ws, isWs x = true)
    (hrest : ∀ c, rest.head? = some c → c.isDigit = false) :
    parseNumero (ws ++ ratStr q ++ rest) = some (q, rest) := by
  have hk1 : 1 ≤ q.den := q.pos
  have hpow : 0 < 10 ^ q.den := pow_pos (by norm_num) _
  obtain ⟨hv1, hne1, hd1⟩ := natStr_spec (q.num.natAbs * (10 ^ q.den / q.den) / 10 ^ q.den)
  obtain ⟨hv2, hne2, hd2⟩ := natStr_spec (q.num.natAbs * (10 ^ q.den / q.den) % 10 ^ q.den)
  have hlen2 : (natStr (q.num.natAbs * (10 ^ q.den / q.den) % 10 ^ q.den)).length ≤ q.den :=
    natStr_length_le _ _ hk1 (Nat.mod_lt _ hpow)
  set F := q.num.natAbs * (10 ^ q.den / q.den) % 10 ^ q.den with hF
  set I := q.num.natAbs * (10 ^ q.den / q.den) / 10 ^ q.den with hI
  set pad := q.den - (natStr F).length with hpad
  set ds2 := List.replicate pad '0' ++ natStr F with hds2
  have hd2' : ∀ c ∈ ds2, c.isDigit = true := by
    intro c hc
    rw [hds2] at hc
    rcases List.mem_append.mp hc with hc | hc
    · have h0 := List.eq_of_mem_replicate hc
      subst h0
      decide
    · exact hd2 c hc
  have hne2' : ds2 ≠ [] := by
    rw [hds2]
    intro h
    exact hne2 (List.append_eq_nil.mp h).2
  have hlen_ds2 : ds2.length = q.den := by
    rw [hds2, List.length_append, List.length_replicate, hpad]
    omega
  have hval_ds2 : valorDe ds2 = F := by
    rw [hds2, valorDe_replicate_zero, hv2]
  have hratstr : ratStr q = (if q.num < 0 then ['-'] else []) ++ natStr I ++ '.' :: ds2 := by
    rw [hds2, hpad, hI, hF]
    rfl
  have hvalor : ((valorDe (natStr I) * 10 ^ ds2.length + valorDe ds2 : ℕ) : ℚ) /
      ((10 ^ ds2.length : ℕ) : ℚ) = |q| := by
    rw [hv1, hval_ds2, hlen_ds2]
    rw [show I * 10 ^ q.den + F = q.num.natAbs * (10 ^ q.den / q.den) from by
      rw [hI, hF]; exact Nat.div_add_mod' _ _]
    exact ratStr_valor q hden
  by_cases hsign : q.num < 0
  · have hqneg : q < 0 := by
      by_contra hcon
      push_neg at hcon
      have := Rat.num_nonneg.mpr hcon
      omega
    have hshape : ws ++ ratStr q ++ rest = ws ++ '-' :: (natStr I ++ '.' :: (ds2 ++ rest)) := by
      rw [hratstr, if_pos hsign]
      simp
    rw [hshape]
    unfold parseNumero
    rw [skipWs_append_ws _ _ hws, skipWs_cons_not _ _ (by decide)]
    dsimp only
    rw [if_pos rfl]
    rw [parseNumCorpo_digits true (natStr I) ds2 rest hne1 hd1 hne2' hd2' hrest]
    rw [if_pos rfl, hvalor, abs_of_neg hqneg, neg_neg]
  · have hqpos : 0 ≤ q := Rat.num_nonneg.mp (by omega)
    obtain ⟨d, ds, hnat⟩ : ∃ d ds, natStr I = d :: ds := by
      cases hn : natStr I with
      | nil => exact absurd hn hne1
      | cons d ds => exact ⟨d, ds, rfl⟩
    have hd : d.isDigit = true := hd1 d (by rw [hnat]; exact List.mem_cons_self _ _)
    have hshape : ws ++ ratStr q ++ rest = ws ++ d :: (ds ++ '.' :: (ds2 ++ rest)) := by
      rw [hratstr, if_neg hsign, hnat]
      simp
    rw [hshape]
    unfold parseNumero
    rw [skipWs_append_ws _ _ hws, skipWs_cons_not _ _ (isWs_eq_false_of_isDigit d hd)]
    dsimp only
    rw [if_neg (by intro h; subst h; simp [Char.isDigit] at hd)]
    rw [show (d :: (ds ++ '.' :: (ds2 ++ rest))) = natStr I ++ '.' :: (ds2 ++ rest) from by
      rw [hnat]; simp]
    rw [parseNumCorpo_digits false (natStr I) ds2 rest hne1 hd1 hne2' hd2' hrest]
    rw [if_neg (by simp), hvalor, abs_of_nonneg hqpos]

/-- Consuming an expected character at the head of the input. -/
theorem esperar_cons (c : Char) (cs : List Char) (hc : isWs c = false) :
    esperar c (c :: cs) = some cs := by
  unfold esperar
  rw [skipWs_cons_not _ _ hc]
  simp

/-- Regrouping one indented field for the field parser. -/
theorem reshape_campo (x : Char) (n : Nat) (comp R : List Char) :
    x :: (ind n ++ (comp ++ R)) = (x :: ind n) ++ comp ++ R := by
  simp

/-- Regrouping the closing brace line for `esperar`. -/
theorem reshape_fechar (x : Char) (n : Nat) (c : Char) (R : List Char) :
    x :: (ind n ++ (c :: R)) = (x :: ind n) ++ c :: R := by
  simp

/-- The characters of an indented line prefix are whitespace. -/
theorem ws_cons_ind (x : Char) (hx : isWs x = true) (n : Nat) :
    ∀ c ∈ x :: ind n, isWs c = true := by
  intro c hc
  rcases List.mem_cons.mp hc with hc | hc
  · subst hc; exact hx
  · have h0 := List.eq_of_mem_replicate hc
    subst h0
    decide

/-- Parsing one printed string field after a whitespace prefix. -/
theorem parseCampoString_print (nome valor : String) (ws rest : List Char)
    (hws : ∀ x ∈ ws, isWs x = true) :
    parseCampoString nome (ws ++ printCampoString nome valor ++ rest) = some (valor, rest) := by
  unfold parseCampoString printCampoString
  rw [show ws ++ (strLit nome ++ ':' :: ' ' :: strLit valor) ++ rest =
      ws ++ strLit nome ++ (':' :: ([' '] ++ strLit valor ++ rest)) from by simp]
  rw [parseString_strLit nome ws _ hws]
  dsimp only
  rw [if_pos rfl]
  rw [esperar_cons ':' _ (by decide)]
  dsimp only
  rw [parseString_strLit valor [' '] rest (by intro x hx; simp at hx; subst hx; decide)]

/-- Parsing one printed numeric field after a whitespace prefix. -/
theorem parseCampoNumero_print (nome : String) (q : ℚ) (hden : q.den ∣ 10 ^ q.den)
    (ws rest : List Char) (hws : ∀ x ∈ ws, isWs x = true)
    (hrest : ∀ c, rest.head? = some c → c.isDigit = false) :
    parseCampoNumero nome (ws ++ printCampoNumero nome q ++ rest) = some (q, rest) := by
  unfold parseCampoNumero printCampoNumero
  rw [show ws ++ (strLit nome ++ ':' :: ' ' :: ratStr q) ++ rest =
      ws ++ strLit nome ++ (':' :: ([' '] ++ ratStr q ++ rest)) from by simp]
  rw [parseString_strLit nome ws _ hws]
  dsimp only
  rw [if_pos rfl]
  rw [esperar_cons ':' _ (by decide)]
  dsimp only
  rw [parseNumero_ratStr q hden [' '] rest (by intro x hx; simp at hx; subst hx; decide) hrest]

/-- Parsing one printed article after a whitespace prefix recovers the
article record. -/
theorem parseArtigo_print (a : Artigo) (hden : a.relevancia.den ∣ 10 ^ a.relevancia.den)
    (ws rest : List Char) (hws : ∀ x ∈ ws, isWs x = true) :
    parseArtigo (ws ++ printArtigo a ++ rest) = some (a, rest) := by
  have hshape : ws ++ printArtigo a ++ rest =
      ws ++ '\x7b' ::
        ('\n' :: (ind 8 ++ (printCampoString "titulo" a.titulo ++
          (',' :: ('\n' :: (ind 8 ++ (printCampoString "resumo" a.resumo ++
            (',' :: ('\n' :: (ind 8 ++ (printCampoString "link" a.link ++
              (',' :: ('\n' :: (ind 8 ++ (printCampoNumero "relevancia" a.relevancia ++
                ('\n' :: (ind 4 ++ ('\x7d' :: rest)))))))))))))))))) := by
    simp [printArtigo]
  rw [hshape]
  unfold parseArtigo
  rw [esperar_eq '\x7b' ws _ hws (by decide)]
  dsimp only
  rw [reshape_campo '\n' 8 (printCampoString "titulo" a.titulo) _]
  rw [parseCampoString_print "titulo" a.titulo ('\n' :: ind 8) _ (ws_cons_ind '\n' (by decide) 8)]
  dsimp only
  rw [esperar_cons ',' _ (by decide)]
  dsimp only
  rw [reshape_campo '\n' 8 (printCampoString "resumo" a.resumo) _]
  rw [parseCampoString_print "resumo" a.resumo ('\n' :: ind 8) _ (ws_cons_ind '\n' (by decide) 8)]
  dsimp only
  rw [esperar_cons ',' _ (by decide)]
  dsimp only
  rw [reshape_campo '\n' 8 (printCampoString "link" a.link) _]
  rw [parseCampoString_print "link" a.link ('\n' :: ind 8) _ (ws_cons_ind '\n' (by decide) 8)]
  dsimp only
  rw [esperar_cons ',' _ (by decide)]
  dsimp only
  rw [reshape_campo '\n' 8 (printCampoNumero "relevancia" a.relevancia) _]
  rw [parseCampoNumero_print "relevancia" a.relevancia hden ('\n' :: ind 8) _
    (ws_cons_ind '\n' (by decide) 8)
    (by intro c hc; injection hc with hc; subst hc; decide)]
  dsimp only
  rw [reshape_fechar '\n' 4 '\x7d' rest]
  rw [esperar_eq '\x7d' ('\n' :: ind 4) rest (ws_cons_ind '\n' (by decide) 4) (by decide)]

/-- Whitespace may also be skipped one character at a time. -/
theorem skipWs_cons_ws (c : Char) (cs : List Char) (h : isWs c = true) :
    skipWs (c :: cs) = skipWs cs := by
  simp [skipWs, List.dropWhile_cons, h]

/-- Indentation is all whitespace. -/
theorem ws_ind (n : Nat) : ∀ c ∈ ind n, isWs c = true := by
  intro c hc
  have h0 := List.eq_of_mem_replicate hc
  subst h0
  decide

/-- Regrouping a cons as a singleton prefix. -/
theorem reshape_consA (x : Char) (A B : List Char) :
    x :: (A ++ B) = [x] ++ A ++ B := by
  simp

/-- A printed item block starts with its article's opening brace. -/
theorem printItens_cons_shape (a : Artigo) (t : List Artigo) :
    ∃ T, printItens (a :: t) = ind 4 ++ (printArtigo a ++ T) := by
  cases t with
  | nil => exact ⟨[], by simp [printItens]⟩
  | cons b t2 => exact ⟨',' :: '\n' :: printItens (b :: t2), by simp [printItens]⟩

/-- The opening brace of an article is visible through leading whitespace. -/
theorem skipWs_printItens_head (a : Artigo) (t : List Artigo) (X : List Char) :
    (skipWs (printItens (a :: t) ++ X)).head? = some '\x7b' := by
  obtain ⟨T, hT⟩ := printItens_cons_shape a t
  rw [hT, show (ind 4 ++ (printArtigo a ++ T)) ++ X = ind 4 ++ (printArtigo a ++ (T ++ X))
    from by simp]
  rw [skipWs_append_ws _ _ (ws_ind 4)]
  have hpa : ∃ Y, printArtigo a = '\x7b' :: Y := ⟨_, rfl⟩
  obtain ⟨Y, hY⟩ := hpa
  rw [hY, List.cons_append, skipWs_cons_not _ _ (by decide)]
  rfl

/-- One fuel unit per article suffices for the item parser. -/
theorem length_le_printItens : ∀ artigos : List Artigo,
    artigos.length ≤ (printItens artigos).length := by
  intro artigos
  induction artigos with
  | nil => simp [printItens]
  | cons a t ih =>
    cases t with
    | nil =>
      show 1 ≤ (ind 4 ++ printArtigo a).length
      rw [List.length_append]
      have : (ind 4).length = 4 := by simp [ind]
      omega
    | cons b t2 =>
      show (a :: b :: t2).length ≤ (ind 4 ++ printArtigo a ++ ',' :: '\n' :: printItens (b :: t2)).length
      have h4 : (ind 4).length = 4 := by simp [ind]
      have hlen := ih
      simp only [List.length_append, List.length_cons] at hlen ⊢
      omega

/-- The item parser undoes the item printer: given enough fuel, a whitespace
prefix and the closing bracket line, it recovers the article list. -/
theorem parseItens_printItens : ∀ (artigos : List Artigo), artigos ≠ [] →
    (∀ a ∈ artigos, a.relevancia.den ∣ 10 ^ a.relevancia.den) →
    ∀ (fuel : Nat), artigos.length ≤ fuel →
    ∀ (ws rest : List Char), (∀ x ∈ ws, isWs x = true) →
    parseItens fuel (ws ++ printItens artigos ++ ('\n' :: ']' :: rest)) =
      some (artigos, rest) := by
  intro artigos
  induction artigos with
  | nil => intro h; exact absurd rfl h
  | cons a t ih =>
    intro _ hden fuel hfuel ws rest hws
    match fuel, hfuel with
    | f + 1, hfuel =>
    have hda : a.relevancia.den ∣ 10 ^ a.relevancia.den :=
      hden a (List.mem_cons_self _ _)
    cases t with
    | nil =>
      show parseItens (f + 1) (ws ++ (ind 4 ++ printArtigo a) ++ ('\n' :: ']' :: rest)) = _
      rw [show ws ++ (ind 4 ++ printArtigo a) ++ ('\n' :: ']' :: rest) =
          (ws ++ ind 4) ++ printArtigo a ++ ('\n' :: ']' :: rest) from by simp]
      unfold parseItens
      rw [parseArtigo_print a hda (ws ++ ind 4) _ (by
        intro x hx
        rcases List.mem_append.mp hx with hx | hx
        · exact hws x hx
        · exact ws_ind 4 x hx)]
      dsimp only
      rw [skipWs_cons_ws '\n' _ (by decide), skipWs_cons_not ']' _ (by decide)]
      dsimp only
      rw [if_neg (by decide), if_pos rfl]
    | cons b t2 =>
      show parseItens (f + 1)
          (ws ++ (ind 4 ++ printArtigo a ++ ',' :: '\n' :: printItens (b :: t2)) ++
            ('\n' :: ']' :: rest)) = _
      rw [show ws ++ (ind 4 ++ printArtigo a ++ ',' :: '\n' :: printItens (b :: t2)) ++
            ('\n' :: ']' :: rest) =
          (ws ++ ind 4) ++ printArtigo a ++
            (',' :: ('\n' :: (printItens (b :: t2) ++ ('\n' :: ']' :: rest)))) from by simp]
      unfold parseItens
      rw [parseArtigo_print a hda (ws ++ ind 4) _ (by
        intro x hx
        rcases List.mem_append.mp hx with hx | hx
        · exact hws x hx
        · exact ws_ind 4 x hx)]
      dsimp only
      rw [skipWs_cons_not ',' _ (by decide)]
      dsimp only
      rw [if_pos rfl]
      rw [reshape_consA '\n' (printItens (b :: t2)) ('\n' :: ']' :: rest)]
      rw [ih (by simp) (fun x hx => hden x (List.mem_cons_of_mem _ hx)) f
        (by simp only [List.length_cons] at hfuel ⊢; omega) ['\n'] rest
        (by intro x hx; simp at hx; subst hx; decide)]
      rfl

/-- Rebuilding the characters of a built string. -/
theorem toList_mk (l : List Char) : (String.mk l).toList = l := rfl

/-- C8: serializing an article list with `salvar_artigos` and parsing the
written JSON document back yields records with identical field values —
titles, abstracts and links character-for-character (non-ASCII preserved
literally), and the exact relevance value, under the hypothesis that each
relevance is a finite-decimal rational (every Python float is one). -/
theorem c8_round_trip (artigos : List Artigo)
    (hden : ∀ a ∈ artigos, a.relevancia.den ∣ 10 ^ a.relevancia.den) :
    carregar_artigos (salvar_artigos artigos) = some artigos := by
  cases artigos with
  | nil => rfl
  | cons a t =>
    show carregar_artigos
        (String.mk ('[' :: '\n' :: printItens (a :: t) ++ '\n' :: [']'])) = _
    unfold carregar_artigos
    rw [toList_mk]
    rw [show ('[' :: '\n' :: printItens (a :: t) ++ '\n' :: [']'] : List Char) =
        '[' :: ('\n' :: (printItens (a :: t) ++ '\n' :: [']'])) from by simp]
    rw [esperar_cons '[' _ (by decide)]
    dsimp only
    rw [if_neg (show ¬ (skipWs ('\n' :: (printItens (a :: t) ++ '\n' :: [']']))).head? =
          some ']' from by
      rw [skipWs_cons_ws '\n' _ (by decide),
        (show printItens (a :: t) ++ '\n' :: [']'] =
          printItens (a :: t) ++ ('\n' :: ']' :: []) from by simp),
        skipWs_printItens_head a t]
      intro h
      injection h with h
      exact absurd h (by decide))]
    rw [show ('\n' :: (printItens (a :: t) ++ '\n' :: [']']) : List Char) =
        ['\n'] ++ printItens (a :: t) ++ ('\n' :: ']' :: []) from by simp]
    rw [parseItens_printItens (a :: t) (by simp) hden _
      (by
        have h1 := length_le_printItens (a :: t)
        simp only [List.length_append, List.length_cons, List.length_nil] at h1 ⊢
        omega)
      ['\n'] [] (by intro x hx; simp at hx; subst hx; decide)]
    rfl

/-- Witness for `c8_round_trip`: a concrete article with non-ASCII text, an
escaped quote and a fractional relevance survives the round trip exactly. -/
theorem c8_round_trip_witness :
    carregar_artigos (salvar_artigos
      [{ titulo := "Atenção", resumo := "ótimo \"resumo\" à parte", link := "http://é",
         relevancia := mkRat 1 2 }]) =
      some [{ titulo := "Atenção", resumo := "ótimo \"resumo\" à parte", link := "http://é",
              relevancia := mkRat 1 2 }] :=
  c8_round_trip _ (by
    intro a ha
    simp only [List.mem_singleton] at ha
    subst ha
    decide)
